import Mathlib

/-!
Verification of the timetabling engine of this repository.

The definitions below are a shallow embedding of src/timetabling.py.
Times of day are modelled as minutes after midnight (a natural number
below 1440); Python time objects compare exactly like their minute
values, and all times produced by the engine have zero seconds.
Floating point scores are modelled exactly, rescaled to integer
thousandths (see the comment at score); the final soft score, which is
never compared, is kept as the rational count/10.  The Excel reading
and writing layer is
excluded (the spec treats it as an external collaborator); the
embedding starts from the parsed, typed tables.

One deliberate modelling choice: pandas sort_values uses numpy
quicksort, whose tie order is unspecified in general but is stable on
the short arrays used in the concrete instances below (numpy falls
back to insertion sort under 16 elements).  The embedding models it as
a stable insertion sort; see the notes at sortDesc.
-/

namespace Timetabling

/-- Embeds minutes_between: the Python timedelta .seconds field wraps a
negative difference into a day, so the result is (b - a) mod 24h. -/
def minutes_between (a b : Nat) : Nat := (1440 + b - a) % 1440

/-- Embeds overlap: half open intervals clash iff max of starts is below
min of ends.  Python compares time objects, which is the minute order. -/
def overlap (a_start a_end b_start b_end : Nat) : Bool :=
  decide (max a_start b_start < min a_end b_end)

/-- Two digit zero padding, as the Python format 02d. -/
def pad2 (n : Nat) : String :=
  if n < 10 then "0" ++ toString n else toString n

/-- Embeds time_to_str: HH:MM rendering. -/
def time_to_str (x : Nat) : String := pad2 (x / 60) ++ ":" ++ pad2 (x % 60)

/-- Three digit zero padding, as the Python format 03d. -/
def pad3 (n : Nat) : String :=
  if n < 10 then "00" ++ toString n
  else if n < 100 then "0" ++ toString n
  else toString n

/-- Slot identifier string, as the Python f-string TS{slot_id:03d}. -/
def tsLabel (n : Nat) : String := "TS" ++ pad3 n

/-- One row of the timeslot table built by build_timeslots. -/
structure TimeSlot where
  slot_id : String
  day : String
  start : Nat
  endT : Nat
  label : String
  duration_min : Nat
  deriving DecidableEq, Inhabited

def dfltSlot : TimeSlot := default

/-- The per-day while loop of build_timeslots.  The loop advances the
cursor by block minutes (mod 24h, via datetime arithmetic) while at
least one block fits before the day end.  Each iteration strictly
decreases minutes_between current end by block, so fuel
minutes_between start end + 1 is enough whenever block is positive;
with block = 0 the Python loop does not terminate (no claim touches
that region). -/
def dayBlocksAux : Nat → Nat → Nat → Nat → List (Nat × Nat)
  | 0, _, _, _ => []
  | fuel + 1, cur, e, block =>
    if block ≤ minutes_between cur e then
      (cur, (cur + block) % 1440) :: dayBlocksAux fuel ((cur + block) % 1440) e block
    else []

def dayBlocks (s e : Nat) (block : Nat) : List (Nat × Nat) :=
  dayBlocksAux (minutes_between s e + 1) s e block

/-- One slot row, matching the tuple appended by build_timeslots. -/
def mkSlot (sid : Nat) (d : String) (p : Nat × Nat) (block : Nat) : TimeSlot :=
  { slot_id := tsLabel sid, day := d, start := p.1, endT := p.2,
    label := time_to_str p.1 ++ "-" ++ time_to_str p.2, duration_min := block }

/-- Rows for one day, with the sequential slot_id counter threaded through. -/
def slotRows (d : String) (block : Nat) : Nat → List (Nat × Nat) → List TimeSlot
  | _, [] => []
  | sid, p :: ps => mkSlot sid d p block :: slotRows d block (sid + 1) ps

/-- The day-major replication loop of build_timeslots. -/
def buildTimeslotsAux (block : Nat) (slots : List (Nat × Nat)) :
    List String → Nat → List TimeSlot
  | [], _ => []
  | d :: ds, sid =>
    slotRows d block sid slots ++ buildTimeslotsAux block slots ds (sid + slots.length)

/-- Embeds build_timeslots: one block sequence replicated per day, ids
assigned sequentially from 1 in generation order. -/
def build_timeslots (days : List String) (s e : Nat) (block : Nat) : List TimeSlot :=
  buildTimeslotsAux block (dayBlocks s e block) days 1

/-- One row of the courses table, after list and number parsing. -/
structure Course where
  course_id : String
  sessions_per_week : Nat
  session_duration_min : Nat
  instructor_id : String
  equipment_required : List String
  deriving DecidableEq, Inhabited

/-- One expanded weekly session (a row of expand_course_sessions output). -/
structure Session where
  course_id : String
  session_index : Nat
  duration_min : Nat
  instructor_id : String
  deriving DecidableEq, Inhabited

def dfltSession : Session := default

/-- Embeds expand_course_sessions: each course contributes one session
per k in range(sessions_per_week), with a 1-based session index, in
input course order. -/
def expand_course_sessions (courses : List Course) : List Session :=
  courses.flatMap (fun c =>
    (List.range c.sessions_per_week).map (fun k =>
      { course_id := c.course_id, session_index := k + 1,
        duration_min := c.session_duration_min, instructor_id := c.instructor_id }))

/-- One candidate chain row produced by slots_matching_duration. -/
structure Chain where
  day : String
  slot_ids : List String
  start : Nat
  endT : Nat
  label : String
  duration_min : Nat
  deriving DecidableEq, Inhabited

/-- Embeds math.ceil(duration / block); block = 0 raises in Python and is
excluded by hypotheses wherever it matters. -/
def blocksNeeded (dur block : Nat) : Nat := (dur + block - 1) / block

/-- The contiguity check of slots_matching_duration over one window:
every adjacent pair satisfies end = start of the next. -/
def chainOk : List TimeSlot → Bool
  | [] => true
  | [_] => true
  | a :: b :: rest => (a.endT == b.start) && chainOk (b :: rest)

/-- Strict lexicographic order on code point sequences; Python compares
strings exactly this way. -/
def charListLt : List Char → List Char → Bool
  | _, [] => false
  | [], _ :: _ => true
  | a :: as, b :: bs =>
    if a.toNat < b.toNat then true
    else if a.toNat = b.toNat then charListLt as bs
    else false

/-- Non-strict lexicographic order on strings by code points. -/
def strLe (a b : String) : Bool := !(charListLt b.data a.data)

/-- Stable insertion into a lexicographically ascending list of strings. -/
def insertStr (s : String) : List String → List String
  | [] => [s]
  | x :: xs => if strLe s x then s :: x :: xs else x :: insertStr s xs

/-- Ascending lexicographic sort; models the sorted group keys of the
pandas groupby (sort=True is the default, keys are day strings, and
Python compares strings by code points exactly like strLe). -/
def sortStr : List String → List String
  | [] => []
  | x :: xs => insertStr x (sortStr xs)

/-- Stable insertion into a list of slots ascending by start time. -/
def insertByStart (x : TimeSlot) : List TimeSlot → List TimeSlot
  | [] => [x]
  | y :: ys => if x.start ≤ y.start then x :: y :: ys else y :: insertByStart x ys

/-- The per-group sort_values("start") of slots_matching_duration,
modelled as a stable ascending sort (start keys are distinct in every
catalog the engine builds, so tie order never matters there). -/
def sortByStart : List TimeSlot → List TimeSlot
  | [] => []
  | x :: xs => insertByStart x (sortByStart xs)

/-- The chain record assembled by slots_matching_duration from one
contiguous window w of k slots: start of the first slot, end of the
last, duration k * block.  For k = 0 (only reachable from duration 0,
where Python indexes records[i-1] with wraparound) the defaults 0 are
returned; every theorem below assumes k is at least 1. -/
def mkChain (d : String) (w : List TimeSlot) (k block : Nat) : Chain :=
  { day := d, slot_ids := w.map (fun r => r.slot_id),
    start := (w.headD dfltSlot).start, endT := (w.getLastD dfltSlot).endT,
    label := d ++ " " ++ time_to_str (w.headD dfltSlot).start ++ "-"
      ++ time_to_str (w.getLastD dfltSlot).endT,
    duration_min := k * block }

/-- The block length of a timeslot table: the duration cell of its
first row (iloc[0]; Python raises on an empty table, which the
scheduler loop below models explicitly before calling this). -/
def tableBlock (ts : List TimeSlot) : Nat := (ts.headD dfltSlot).duration_min

/-- One day group of the chain builder: the rows of that day in table
order, then sorted ascending by start. -/
def dayGroup (ts : List TimeSlot) (d : String) : List TimeSlot :=
  sortByStart (ts.filter (fun r => r.day == d))

/-- Embeds slots_matching_duration.  Days are grouped in sorted key
order (pandas groupby sorts keys), each group is ordered by start, and
every contiguous sliding window of k slots yields a chain. -/
def slots_matching_duration (ts : List TimeSlot) (dur : Nat) : List Chain :=
  let k := blocksNeeded dur (tableBlock ts)
  (sortStr ((ts.map (fun r => r.day)).eraseDups)).flatMap (fun d =>
    (List.range ((dayGroup ts d).length + 1 - k)).filterMap (fun i =>
      let w := ((dayGroup ts d).drop i).take k
      if chainOk w then some (mkChain d w k (tableBlock ts)) else none))

/-- One row of the instructors table after normalization (parse_list and
parse_time applied; a missing preferred time parses to none and the
Python expression x or default replaces it by the day window bound). -/
structure Instructor where
  instructor_id : String
  preferred_days : List String
  preferred_start : Option Nat
  preferred_end : Option Nat
  deriving DecidableEq, Inhabited

/-- One row of the availability table after time parsing. -/
structure AvailabilityRow where
  instructor_id : String
  day : String
  available_start : Nat
  available_end : Nat
  deriving DecidableEq, Inhabited

/-- One row of the rooms table; capacity is an integer cell. -/
structure Room where
  room_id : String
  building : String
  capacity : Int
  equipment : List String
  deriving DecidableEq, Inhabited

/-- One row of the enrollments table. -/
structure Enrollment where
  course_id : String
  student_id : String
  deriving DecidableEq, Inhabited

/-- The parsed input of one scheduling run: the typed tables plus the
settings already decoded by run_scheduler (DAYS, START_DAY, END_DAY,
BLOCK_MIN).  The students and building_travel sheets are read but
never consulted by the algorithm, so they are omitted. -/
structure Env where
  DAYS : List String
  START_DAY : Nat
  END_DAY : Nat
  BLOCK_MIN : Nat
  courses : List Course
  instructors : List Instructor
  availability : List AvailabilityRow
  rooms : List Room
  enrollments : List Enrollment
  deriving Inhabited

/-- The timeslot catalog the run builds once from its settings. -/
def timeslotsOf (env : Env) : List TimeSlot :=
  build_timeslots env.DAYS env.START_DAY env.END_DAY env.BLOCK_MIN

/-- Embeds the inner instructor_available closure: some availability row
for this instructor and day fully contains the interval. -/
def instructor_available (env : Env) (instr day : String) (s e : Nat) : Bool :=
  (env.availability.filter (fun r => r.instructor_id == instr && r.day == day)).any
    (fun r => decide (r.available_start ≤ s) && decide (e ≤ r.available_end))

/-- Embeds room_ok: the required tags are a subset of the rooms equipment. -/
def room_ok (room : Room) (required : List String) : Bool :=
  required.all (fun x => room.equipment.contains x)

/-- Embeds free_in: the interval overlaps none of the booked intervals. -/
def free_in (intervals : List (Nat × Nat)) (s e : Nat) : Bool :=
  !(intervals.any (fun p => overlap s e p.1 p.2))

/-- Embeds the course_students dictionary: the student ids enrolled in a
course, in enrollment row order (pandas groupby keeps row order inside
a group); a course with no enrollments maps to the empty list. -/
def course_students (enrollments : List Enrollment) (cid : String) : List String :=
  (enrollments.filter (fun r => r.course_id == cid)).map (fun r => r.student_id)

/-- Embeds the per-session score closure, rescaled by the exact factor
1000: the source computes the float bonus 2 for a preferred day plus 1
for fitting the preferred window minus 0.001 times the distance sum m
(an integer of at most 2880), and this embedding stores the integer
1000 times that value.  The rescaling is strictly monotone, so the
sort order and, within one bonus level, the tie structure of the
floats are preserved exactly (two floats k - fl(0.001 m1) and
k - fl(0.001 m2) are equal iff m1 = m2, the 1/1000 gap dwarfing the
1e-16 rounding error).  Across different bonus levels the floats can
differ where the exact values coincide (for example 2 - 0.001*1500
against 1 - 0.001*500); every concrete instance below ties only within
one bonus level with equal distance sums, where float and exact
equality agree. -/
def score (env : Env) (irow : Instructor) (ch : Chain) : Int :=
  let ps := irow.preferred_start.getD env.START_DAY
  let pe := irow.preferred_end.getD env.END_DAY
  ((if irow.preferred_days.contains ch.day then 2000 else 0) : Int)
    + (if ps ≤ ch.start ∧ ch.endT ≤ pe then 1000 else 0)
    - ((minutes_between env.START_DAY ch.start
        + minutes_between ch.endT env.END_DAY : Nat) : Int)

/-- Stable insertion for the descending score sort: the incoming element
passes every element of strictly larger key and stops in front of the
first element whose key is not larger, so equal keys keep their
original relative order. -/
def insertDesc {α : Type} (key : α → Int) (c : α) : List α → List α
  | [] => [c]
  | x :: xs => if key x ≤ key c then c :: x :: xs else x :: insertDesc key c xs

/-- Descending stable sort by score; models sort_values(ascending=False).
See the file comment: numpy quicksort does not promise stability in
general, but is stable on the short arrays of the instances proved
here, and this is the reading under which the spec states its tie
rule. -/
def sortDesc {α : Type} (key : α → Int) : List α → List α
  | [] => []
  | x :: xs => insertDesc key x (sortDesc key xs)

/-- The ranked chain list a session iterates: the cached chain set for
its duration (the cache is semantically transparent), scored and
sorted descending. -/
def rankedChains (env : Env) (irow : Instructor) (dur : Nat) : List Chain :=
  sortDesc (score env irow) (slots_matching_duration (timeslotsOf env) dur)

/-- One output row of the scheduler; absent fields model None cells. -/
structure Assignment where
  course_id : String
  session_index : Nat
  instructor_id : String
  room_id : Option String
  building : Option String
  day : Option String
  start : Option Nat
  endT : Option Nat
  slot_ids : String
  deriving DecidableEq, Inhabited

def dfltAssignment : Assignment := default

/-- The three busy calendars (defaultdict(list) keyed by (resource, day)). -/
structure SchedState where
  roomBusy : String × String → List (Nat × Nat)
  instrBusy : String × String → List (Nat × Nat)
  studentBusy : String × String → List (Nat × Nat)

def initState : SchedState :=
  { roomBusy := fun _ => [], instrBusy := fun _ => [], studentBusy := fun _ => [] }

/-- Appending to one key of a calendar (list.append on the defaultdict). -/
def pushAt (f : String × String → List (Nat × Nat)) (k : String × String)
    (v : Nat × Nat) : String × String → List (Nat × Nat) :=
  fun x => if x = k then f x ++ [v] else f x

/-- The room test of the inner loop: equipment, capacity against the
enrolled head count, then conflict freedom of room, instructor and
every enrolled student calendar. -/
def roomPasses (env : Env) (st : SchedState) (sess : Session) (req : List String)
    (ch : Chain) (room : Room) : Bool :=
  room_ok room req
    && decide (((course_students env.enrollments sess.course_id).length : Int)
        ≤ room.capacity)
    && free_in (st.roomBusy (room.room_id, ch.day)) ch.start ch.endT
    && free_in (st.instrBusy (sess.instructor_id, ch.day)) ch.start ch.endT
    && (course_students env.enrollments sess.course_id).all
      (fun sid => free_in (st.studentBusy (sid, ch.day)) ch.start ch.endT)

/-- The chain-then-room search: chains in ranked order, skipping chains
whose day and interval the instructor is unavailable for, rooms in
table order inside each chain; the first passing pair wins. -/
def findPlacement (env : Env) (st : SchedState) (sess : Session) (req : List String)
    (chains : List Chain) : Option (Chain × Room) :=
  chains.findSome? (fun ch =>
    if instructor_available env sess.instructor_id ch.day ch.start ch.endT then
      (env.rooms.find? (fun room => roomPasses env st sess req ch room)).map
        (fun room => (ch, room))
    else none)

/-- Committing a placement: the chains interval is appended to the room,
instructor and every enrolled student calendar for that day. -/
def commit (env : Env) (st : SchedState) (sess : Session) (ch : Chain)
    (room : Room) : SchedState :=
  { roomBusy := pushAt st.roomBusy (room.room_id, ch.day) (ch.start, ch.endT),
    instrBusy := pushAt st.instrBusy (sess.instructor_id, ch.day) (ch.start, ch.endT),
    studentBusy := (course_students env.enrollments sess.course_id).foldl
      (fun g sid => pushAt g (sid, ch.day) (ch.start, ch.endT)) st.studentBusy }

/-- The placed output row. -/
def mkPlaced (sess : Session) (ch : Chain) (room : Room) : Assignment :=
  { course_id := sess.course_id, session_index := sess.session_index,
    instructor_id := sess.instructor_id, room_id := some room.room_id,
    building := some room.building, day := some ch.day, start := some ch.start,
    endT := some ch.endT, slot_ids := String.intercalate "," ch.slot_ids }

/-- The unplaced output row: every placement field absent. -/
def mkUnplaced (sess : Session) : Assignment :=
  { course_id := sess.course_id, session_index := sess.session_index,
    instructor_id := sess.instructor_id, room_id := none, building := none,
    day := none, start := none, endT := none, slot_ids := "" }

/-- The generic message of the pandas positional-indexer IndexError: it
is raised by the .iloc[0] lookups when the course or instructor filter
matches nothing (lines 201 and 205) and when slots_matching_duration
reads the block length from an empty timeslot table (line 91).  The
text never mentions the missing id. -/
def pandasIndexMsg : String := "single positional indexer is out-of-bounds"

/-- One iteration of the greedy loop, in source order: course row lookup
(cannot fail for expanded sessions but raises if the id is absent),
the chain set for the duration (raises the same IndexError on an empty
timeslot catalog), instructor row lookup (raises if the id is absent),
then the ranked search; success commits, failure emits the unplaced
row.  Exceptions are modelled as Except.error. -/
def step (env : Env) (st : SchedState) (sess : Session) :
    Except String (SchedState × Assignment) :=
  match env.courses.find? (fun c => c.course_id == sess.course_id) with
  | none => .error pandasIndexMsg
  | some c =>
    if (timeslotsOf env).isEmpty then .error pandasIndexMsg
    else
      match env.instructors.find? (fun i => i.instructor_id == sess.instructor_id) with
      | none => .error pandasIndexMsg
      | some irow =>
        match findPlacement env st sess c.equipment_required
            (rankedChains env irow sess.duration_min) with
        | some (ch, room) => .ok (commit env st sess ch room, mkPlaced sess ch room)
        | none => .ok (st, mkUnplaced sess)

/-- The greedy loop over the expanded sessions, threading the calendars
and collecting one assignment per session in order. -/
def processSessions (env : Env) : List Session → SchedState →
    Except String (List Assignment × SchedState)
  | [], st => .ok ([], st)
  | sess :: rest, st =>
    match step env st sess with
    | .error m => .error m
    | .ok (st1, a) =>
      match processSessions env rest st1 with
      | .error m => .error m
      | .ok (rest1, st2) => .ok (a :: rest1, st2)

/-- The core of run_scheduler: expansion followed by the greedy loop. -/
def runCore (env : Env) : Except String (List Assignment × SchedState) :=
  processSessions env (expand_course_sessions env.courses) initState

/-- The assignment sequence of a run (the schedule DataFrame rows). -/
def runAssignments (env : Env) : Except String (List Assignment) :=
  match runCore env with
  | .error m => .error m
  | .ok (asn, _) => .ok asn

/-- The final busy calendars of a run (initState when the run raised). -/
def finalState (env : Env) : SchedState :=
  match runCore env with
  | .error _ => initState
  | .ok (_, st) => st

/-- One stringified schedule row, as produced by stringify_times: the
start and end columns become HH:MM strings, absent times become the
empty string, every other column is untouched. -/
structure AssignmentStr where
  course_id : String
  session_index : Nat
  instructor_id : String
  room_id : Option String
  building : Option String
  day : Option String
  start : String
  endT : String
  slot_ids : String
  deriving DecidableEq, Inhabited

def timeOptToStr : Option Nat → String
  | some x => time_to_str x
  | none => ""

def stringifyAssignment (a : Assignment) : AssignmentStr :=
  { course_id := a.course_id, session_index := a.session_index,
    instructor_id := a.instructor_id, room_id := a.room_id, building := a.building,
    day := a.day, start := timeOptToStr a.start, endT := timeOptToStr a.endT,
    slot_ids := a.slot_ids }

/-- The message of the KeyError raised by schedule.dropna(subset=["day"])
when the schedule DataFrame was built from an empty record list and
therefore has no day column. -/
def keyErrorDayMsg : String := "KeyError: day"

/-- The summary returned by run_scheduler.  The output_bytes field (the
Excel serialization of the same rows) is excluded I/O and omitted. -/
structure RunResult where
  soft_score : ℚ
  preview : List AssignmentStr
  sessions : Nat
  hard_errors : Nat
  soft_details : Nat

/-- Embeds run_scheduler end to end from the parsed tables: the greedy
core, then the soft score (count of rows with a day, times 0.1; on an
empty schedule the dropna raises the KeyError modelled here), the
stringified preview of the first 20 rows, and the counts with the
hard-coded zeros. -/
def run_scheduler (env : Env) : Except String RunResult :=
  match runCore env with
  | .error m => .error m
  | .ok (assigned, _) =>
    if assigned.isEmpty then .error keyErrorDayMsg
    else
      .ok { soft_score := ((assigned.filter (fun a => a.day.isSome)).length : ℚ) * (1 / 10),
            preview := (assigned.map stringifyAssignment).take 20,
            sessions := assigned.length,
            hard_errors := 0,
            soft_details := 0 }

/-! ## Basic facts about the conflict predicate -/

theorem overlap_swap (a b c d : Nat) : overlap a b c d = overlap c d a b := by
  simp only [overlap]
  rw [max_comm c a, min_comm d b]

theorem free_in_spec (l : List (Nat × Nat)) (s e : Nat) :
    free_in l s e = true ↔ ∀ p ∈ l, overlap s e p.1 p.2 = false := by
  simp [free_in, List.any_eq_false]

/-- C5: the overlap predicate on half-open intervals returns true iff
max of the starts is below min of the ends, is symmetric in the two
intervals, and never flags two intervals that only share a boundary
point. -/
theorem C5_overlap_characterization (a b c d : Nat) :
    (overlap a b c d = true ↔ max a c < min b d) ∧
    overlap a b c d = overlap c d a b ∧
    (b = c ∨ d = a → overlap a b c d = false) := by
  refine ⟨by simp [overlap], overlap_swap a b c d, ?_⟩
  rintro (rfl | rfl)
  · simp only [overlap, decide_eq_false_iff_not, not_lt]
    exact le_trans (min_le_left _ _) (le_max_right _ _)
  · simp only [overlap, decide_eq_false_iff_not, not_lt]
    exact le_trans (min_le_right _ _) (le_max_left _ _)

/-- Witness for C5 at a concrete boundary pair: 09:00-10:00 against
10:00-11:00 is not flagged. -/
theorem C5_overlap_characterization_witness : overlap 540 600 600 660 = false :=
  (C5_overlap_characterization 540 600 600 660).2.2 (Or.inl rfl)

/-! ## The timeslot catalog -/

theorem minutes_between_of_le (a b : Nat) (hab : a ≤ b) (hb : b < 1440) :
    minutes_between a b = b - a := by
  unfold minutes_between
  have h1 : 1440 + b - a = 1440 + (b - a) := by omega
  rw [h1, Nat.add_mod_left]
  exact Nat.mod_eq_of_lt (by omega)

theorem dayBlocksAux_eq (b : Nat) (e : Nat) (hb : 0 < b) (he : e < 1440) :
    ∀ fuel cur, cur ≤ e → (e - cur) / b ≤ fuel →
      dayBlocksAux fuel cur e b =
        (List.range ((e - cur) / b)).map (fun i => (cur + i * b, cur + (i + 1) * b)) := by
  intro fuel
  induction fuel with
  | zero =>
    intro cur hc hf
    have h0 : (e - cur) / b = 0 := Nat.le_zero.mp hf
    simp [dayBlocksAux, h0]
  | succ n ih =>
    intro cur hc hf
    have hmb : minutes_between cur e = e - cur := minutes_between_of_le cur e hc he
    by_cases hcond : b ≤ e - cur
    · have hcur1440 : cur + b ≤ e := by omega
      have hmod : (cur + b) % 1440 = cur + b := Nat.mod_eq_of_lt (by omega)
      have hdiv : (e - cur) / b = (e - (cur + b)) / b + 1 := by
        have h2 : e - cur = (e - (cur + b)) + b := by omega
        rw [h2, Nat.add_div_right _ hb]
      unfold dayBlocksAux
      rw [if_pos (by omega : b ≤ minutes_between cur e), hmod,
        ih (cur + b) (by omega) (by omega), hdiv, List.range_succ_eq_map]
      simp only [List.map_cons, List.map_map]
      refine congrArg₂ List.cons (by simp) ?_
      apply List.map_congr_left
      intro i _
      simp only [Function.comp_apply]
      refine Prod.ext ?_ ?_ <;> simp <;> ring
    · have h0 : (e - cur) / b = 0 := Nat.div_eq_of_lt (by omega)
      unfold dayBlocksAux
      rw [if_neg (by omega : ¬ b ≤ minutes_between cur e)]
      simp [h0]

theorem dayBlocks_eq (s e : Nat) (b : Nat) (hb : 0 < b) (hse : s ≤ e) (he : e < 1440) :
    dayBlocks s e b =
      (List.range ((e - s) / b)).map (fun i => (s + i * b, s + (i + 1) * b)) := by
  unfold dayBlocks
  apply dayBlocksAux_eq b e hb he _ s hse
  rw [minutes_between_of_le s e hse he]
  have := Nat.div_le_self (e - s) b
  omega

theorem slotRows_length (d : String) (b : Nat) :
    ∀ ps sid, (slotRows d b sid ps).length = ps.length := by
  intro ps
  induction ps with
  | nil => intro sid; rfl
  | cons p ps ih => intro sid; simp [slotRows, ih]

theorem slotRows_getElem? (d : String) (b : Nat) :
    ∀ ps sid i, i < ps.length →
      (slotRows d b sid ps)[i]? = some (mkSlot (sid + i) d (ps.getD i (0, 0)) b) := by
  intro ps
  induction ps with
  | nil => intro sid i hi; simp at hi
  | cons p ps ih =>
    intro sid i hi
    match i with
    | 0 => simp [slotRows]
    | i + 1 =>
      have := ih (sid + 1) i (by simpa using hi)
      simp only [slotRows, List.getElem?_cons_succ, this, List.getD_cons_succ]
      congr 2
      omega

theorem buildTimeslotsAux_length (b : Nat) (slots : List (Nat × Nat)) :
    ∀ days sid, (buildTimeslotsAux b slots days sid).length = days.length * slots.length := by
  intro days
  induction days with
  | nil => intro sid; simp [buildTimeslotsAux]
  | cons d ds ih =>
    intro sid
    simp [buildTimeslotsAux, slotRows_length, ih, Nat.succ_mul, Nat.add_comm]

theorem buildTimeslotsAux_getElem? (b : Nat) (slots : List (Nat × Nat))
    (hn : 0 < slots.length) :
    ∀ days sid i, i < days.length * slots.length →
      (buildTimeslotsAux b slots days sid)[i]? =
        some (mkSlot (sid + i) (days.getD (i / slots.length) "")
          (slots.getD (i % slots.length) (0, 0)) b) := by
  intro days
  induction days with
  | nil => intro sid i hi; simp at hi
  | cons d ds ih =>
    intro sid i hi
    by_cases hlt : i < slots.length
    · rw [buildTimeslotsAux,
        List.getElem?_append_left (by rw [slotRows_length]; exact hlt),
        slotRows_getElem? d b slots sid i hlt,
        Nat.div_eq_of_lt hlt, Nat.mod_eq_of_lt hlt]
      simp
    · push_neg at hlt
      have hi2 : i - slots.length < ds.length * slots.length := by
        have h3 : (d :: ds).length * slots.length = ds.length * slots.length + slots.length := by
          simp [Nat.succ_mul]
        omega
      have hsplit : i = (i - slots.length) + slots.length := by omega
      rw [buildTimeslotsAux,
        List.getElem?_append_right (by rw [slotRows_length]; exact hlt),
        slotRows_length, ih (sid + slots.length) (i - slots.length) hi2]
      have hdivs : i / slots.length = (i - slots.length) / slots.length + 1 := by
        conv_lhs => rw [hsplit]
        rw [Nat.add_div_right _ hn]
      have hmods : i % slots.length = (i - slots.length) % slots.length := by
        conv_lhs => rw [hsplit]
        rw [Nat.add_mod_right]
      rw [hdivs, hmods]
      congr 2
      omega

/-- Full characterization of the generated catalog; shared helper, the
claim theorem below restates it. -/
theorem build_timeslots_char (days : List String) (s e : Nat) (b : Nat)
    (hb : 0 < b) (hse : s < e) (he : e < 1440) :
    minutes_between s e = e - s ∧
    (build_timeslots days s e b).length = days.length * ((e - s) / b) ∧
    ∀ i, i < days.length * ((e - s) / b) →
      (build_timeslots days s e b)[i]? =
        some (mkSlot (1 + i) (days.getD (i / ((e - s) / b)) "")
          (s + (i % ((e - s) / b)) * b, s + (i % ((e - s) / b) + 1) * b) b) := by
  have hsd := dayBlocks_eq s e b hb (Nat.le_of_lt hse) he
  have hlen : (dayBlocks s e b).length = (e - s) / b := by
    rw [hsd]; simp
  refine ⟨minutes_between_of_le s e (Nat.le_of_lt hse) he, ?_, ?_⟩
  · rw [build_timeslots, buildTimeslotsAux_length, hlen]
  · intro i hi
    have hn : 0 < (e - s) / b := by
      rcases Nat.eq_zero_or_pos ((e - s) / b) with h0 | h0
      · rw [h0, Nat.mul_zero] at hi
        omega
      · exact h0
    have hi2 : i < days.length * (dayBlocks s e b).length := by
      rw [hlen]
      exact hi
    have hmod : i % ((e - s) / b) < (e - s) / b := Nat.mod_lt i hn
    rw [build_timeslots,
      buildTimeslotsAux_getElem? b _ (by rw [hlen]; exact hn) days 1 i hi2, hlen]
    have hgd : (dayBlocks s e b).getD (i % ((e - s) / b)) (0, 0) =
        (s + (i % ((e - s) / b)) * b, s + (i % ((e - s) / b) + 1) * b) := by
      rw [hsd, List.getD_eq_getElem?_getD, List.getElem?_map, List.getElem?_range hmod]
      rfl
    rw [hgd]

/-- C6: for a positive block length and a day window with start below
end (both times of day, hence below 24h), the generated catalog has,
for each day, exactly floor(span / block) slots; the slot at overall
position i (0-based) belongs to day number i / n (day-major order),
runs from start + (i mod n) blocks to start + (i mod n + 1) blocks
(so slots within a day are contiguous, non-overlapping and ascending,
and the trailing partial period shorter than a block is dropped), and
carries the sequential identifier i + 1, day-major then
time-ascending. -/
theorem C6_build_timeslots_characterization (days : List String) (s e : Nat) (b : Nat)
    (hb : 0 < b) (hse : s < e) (he : e < 1440) :
    minutes_between s e = e - s ∧
    (build_timeslots days s e b).length = days.length * ((e - s) / b) ∧
    ∀ i, i < days.length * ((e - s) / b) →
      (build_timeslots days s e b)[i]? =
        some (mkSlot (1 + i) (days.getD (i / ((e - s) / b)) "")
          (s + (i % ((e - s) / b)) * b, s + (i % ((e - s) / b) + 1) * b) b) :=
  build_timeslots_char days s e b hb hse he

/-- Witness for C6: two days of the default-style window 08:00 to 11:00
with 90 minute blocks; the slot at overall position 2 is the first
slot of the second day, TS003 from 08:00 to 09:30. -/
theorem C6_build_timeslots_characterization_witness :
    (build_timeslots ["Mon", "Tue"] 480 660 90)[2]? =
      some (mkSlot (1 + 2) ((["Mon", "Tue"]).getD (2 / ((660 - 480) / 90)) "")
        (480 + (2 % ((660 - 480) / 90)) * 90, 480 + (2 % ((660 - 480) / 90) + 1) * 90) 90) :=
  (C6_build_timeslots_characterization ["Mon", "Tue"] 480 660 90 (by decide) (by decide)
    (by decide)).2.2 2 (by decide)

/-! ## The chain builder -/

theorem mem_insertByStart (x y : TimeSlot) (l : List TimeSlot) :
    y ∈ insertByStart x l ↔ y = x ∨ y ∈ l := by
  induction l with
  | nil => simp [insertByStart]
  | cons z zs ih =>
    by_cases h : x.start ≤ z.start
    · simp [insertByStart, h]
    · simp only [insertByStart, if_neg h, List.mem_cons, ih]
      tauto

theorem mem_sortByStart (y : TimeSlot) (l : List TimeSlot) :
    y ∈ sortByStart l ↔ y ∈ l := by
  induction l with
  | nil => simp [sortByStart]
  | cons z zs ih =>
    simp [sortByStart, mem_insertByStart, ih]

theorem mem_dayGroup (ts : List TimeSlot) (d : String) (x : TimeSlot)
    (hx : x ∈ dayGroup ts d) : x ∈ ts := by
  rw [dayGroup, mem_sortByStart] at hx
  exact List.mem_of_mem_filter hx

theorem chainOk_adjacent : ∀ w : List TimeSlot, chainOk w = true →
    ∀ j, j + 1 < w.length → (w.getD j dfltSlot).endT = (w.getD (j + 1) dfltSlot).start := by
  intro w
  induction w with
  | nil => intro _ j hj; simp at hj
  | cons a rest ih =>
    intro hok j hj
    match rest, j with
    | [], 0 => simp at hj
    | b :: rest2, 0 =>
      have := (Bool.and_eq_true _ _).mp hok
      simpa using beq_iff_eq.mp this.1
    | b :: rest2, j + 1 =>
      have := (Bool.and_eq_true _ _).mp hok
      have hrec := ih this.2 j (by simpa using hj)
      simpa using hrec

/-- Unpacking membership in the chain builder output: every chain comes
from a contiguous window of k slots of one day group. -/
theorem mem_slots_matching (ts : List TimeSlot) (dur : Nat) (c : Chain)
    (hc : c ∈ slots_matching_duration ts dur) :
    ∃ d i, i + blocksNeeded dur (tableBlock ts) ≤ (dayGroup ts d).length ∧
      chainOk (((dayGroup ts d).drop i).take (blocksNeeded dur (tableBlock ts))) = true ∧
      c = mkChain d (((dayGroup ts d).drop i).take (blocksNeeded dur (tableBlock ts)))
        (blocksNeeded dur (tableBlock ts)) (tableBlock ts) := by
  simp only [slots_matching_duration, List.mem_flatMap, List.mem_filterMap,
    List.mem_range] at hc
  obtain ⟨d, _, i, hi, hsome⟩ := hc
  by_cases hok : chainOk (((dayGroup ts d).drop i).take (blocksNeeded dur (tableBlock ts)))
  · rw [if_pos hok] at hsome
    exact ⟨d, i, by omega, hok, (Option.some_inj.mp hsome).symm⟩
  · rw [if_neg hok] at hsome
    exact absurd hsome (by simp)

theorem window_length (l : List TimeSlot) (i k : Nat) (h : i + k ≤ l.length) :
    ((l.drop i).take k).length = k := by
  rw [List.length_take, List.length_drop]
  omega

/-- C4: every chain returned by the chain builder for duration d over a
table with block length b consists of exactly k = ceil(d / b) slot
ids, taken from a window of k slots of the chains day group in which
each adjacent pair of slots satisfies end = start of the next, with
the chain start and end read off the first and last slot of the
window; windows are slid one position at a time, so overlapping chains
are emitted: the final conjunct checks that a day of three contiguous
blocks with k = 2 yields exactly the two overlapping chains. -/
theorem C4_chain_windows (ts : List TimeSlot) (dur : Nat) (c : Chain)
    (hk : 1 ≤ blocksNeeded dur (tableBlock ts))
    (hc : c ∈ slots_matching_duration ts dur) :
    (c.slot_ids.length = blocksNeeded dur (tableBlock ts) ∧
      ∃ w : List TimeSlot,
        w.length = blocksNeeded dur (tableBlock ts) ∧
        (∀ x ∈ w, x ∈ ts) ∧
        (∀ j, j + 1 < w.length → (w.getD j dfltSlot).endT = (w.getD (j + 1) dfltSlot).start) ∧
        c.slot_ids = w.map (fun r => r.slot_id) ∧
        c.start = (w.headD dfltSlot).start ∧
        c.endT = (w.getLastD dfltSlot).endT ∧
        ∃ i, w = ((dayGroup ts c.day).drop i).take (blocksNeeded dur (tableBlock ts))) ∧
    (slots_matching_duration (build_timeslots ["Mon"] 480 750 90) 180).map
      (fun ch => ch.slot_ids) = [["TS001", "TS002"], ["TS002", "TS003"]] := by
  refine ⟨?_, by decide⟩
  obtain ⟨d, i, hle, hok, hcw⟩ := mem_slots_matching ts dur c hc
  set k := blocksNeeded dur (tableBlock ts) with hkdef
  set w := ((dayGroup ts d).drop i).take k with hwdef
  have hwl : w.length = k := window_length _ i k hle
  have hday : c.day = d := by rw [hcw]; rfl
  refine ⟨?_, w, hwl, ?_, chainOk_adjacent w hok, ?_, ?_, ?_, ?_⟩
  · rw [hcw]
    simp [mkChain, hwl]
  · intro x hx
    exact mem_dayGroup ts d x (List.mem_of_mem_drop (List.mem_of_mem_take hx))
  · rw [hcw]; rfl
  · rw [hcw]; rfl
  · rw [hcw]; rfl
  · exact ⟨i, by rw [hday]⟩

/-- The three-block example table for the C4 witness. -/
def exampleTs : List TimeSlot := build_timeslots ["Mon"] 480 750 90

/-- The first chain of the three-block example. -/
def exampleChain : Chain :=
  { day := "Mon", slot_ids := ["TS001", "TS002"], start := 480,
    endT := 660, label := "Mon 08:00-11:00", duration_min := 180 }

/-- Witness for C4: the first chain of the three-block example is made
of the window TS001, TS002. -/
theorem C4_chain_windows_witness :
    (exampleChain.slot_ids.length = blocksNeeded 180 (tableBlock exampleTs) ∧
      ∃ w : List TimeSlot,
        w.length = blocksNeeded 180 (tableBlock exampleTs) ∧
        (∀ x ∈ w, x ∈ exampleTs) ∧
        (∀ j, j + 1 < w.length → (w.getD j dfltSlot).endT = (w.getD (j + 1) dfltSlot).start) ∧
        exampleChain.slot_ids = w.map (fun r => r.slot_id) ∧
        exampleChain.start = (w.headD dfltSlot).start ∧
        exampleChain.endT = (w.getLastD dfltSlot).endT ∧
        ∃ i, w = ((dayGroup exampleTs exampleChain.day).drop i).take
          (blocksNeeded 180 (tableBlock exampleTs))) ∧
    (slots_matching_duration (build_timeslots ["Mon"] 480 750 90) 180).map
      (fun ch => ch.slot_ids) = [["TS001", "TS002"], ["TS002", "TS003"]] :=
  C4_chain_windows exampleTs 180 exampleChain (by decide) (by decide)

/-! ## Stability of the score sort -/

theorem filter_insertDesc {α : Type} (key : α → Int) (q : Int) (c : α) (l : List α) :
    (insertDesc key c l).filter (fun x => decide (key x = q)) =
      if key c = q then c :: l.filter (fun x => decide (key x = q))
      else l.filter (fun x => decide (key x = q)) := by
  induction l with
  | nil =>
    by_cases hq : key c = q <;> simp [insertDesc, hq]
  | cons x xs ih =>
    by_cases hle : key x ≤ key c
    · rw [insertDesc, if_pos hle]
      by_cases hq : key c = q <;> simp [List.filter_cons, hq]
    · rw [insertDesc, if_neg hle]
      by_cases hq : key c = q
      · have hxq : ¬ (key x = q) := by
          intro h
          exact hle (le_of_eq (hq ▸ h))
        simp [List.filter_cons, hxq, ih, hq]
      · by_cases hxq : key x = q <;> simp [List.filter_cons, hxq, ih, hq]

theorem filter_sortDesc {α : Type} (key : α → Int) (q : Int) (l : List α) :
    (sortDesc key l).filter (fun x => decide (key x = q)) =
      l.filter (fun x => decide (key x = q)) := by
  induction l with
  | nil => rfl
  | cons x xs ih =>
    rw [sortDesc, filter_insertDesc, List.filter_cons]
    by_cases hq : key x = q <;> simp [hq, ih]

/-- C3 amended: for every session the chains of any one score level
appear in the ranked list exactly in generation order, where the
generation order groups days in sorted lexicographic key order (the
pandas groupby sorts its keys; it does not follow the configured day
list) and ascending start inside a day, under the stable model of
sort_values.  The subsequence of chains at each score value is
preserved by the sort. -/
theorem C3_tie_stability (env : Env) (irow : Instructor) (dur : Nat) (q : Int) :
    (rankedChains env irow dur).filter (fun c => decide (score env irow c = q)) =
      (slots_matching_duration (timeslotsOf env) dur).filter
        (fun c => decide (score env irow c = q)) :=
  filter_sortDesc (score env irow) q _

/-- An input whose configured day list is Sun before Mon: the groupby
generates Mon chains first because Mon sorts below Sun
lexicographically. -/
def dayOrderEnv : Env :=
  { DAYS := ["Sun", "Mon"], START_DAY := 480, END_DAY := 570, BLOCK_MIN := 90,
    courses := [], instructors := [], availability := [], rooms := [], enrollments := [] }

/-- An instructor with no day or window preference, giving both chains
of dayOrderEnv the same score. -/
def dayOrderInstructor : Instructor :=
  { instructor_id := "T1", preferred_days := [], preferred_start := none,
    preferred_end := none }

/-- Counterexample to C3 as stated: the configured day list puts Sun
first, the two candidate chains (one per day, identical times) score
equally, yet the ranked order tries the Mon chain first, because
chains are generated in sorted lexicographic day order (pandas groupby
sorts keys), not in configured day-list order. -/
theorem C3_day_order_counterexample :
    dayOrderEnv.DAYS = ["Sun", "Mon"] ∧
    (slots_matching_duration (timeslotsOf dayOrderEnv) 90).map (fun c => c.day) =
      ["Mon", "Sun"] ∧
    (slots_matching_duration (timeslotsOf dayOrderEnv) 90).map
      (score dayOrderEnv dayOrderInstructor) = [1000, 1000] ∧
    (rankedChains dayOrderEnv dayOrderInstructor 90).map (fun c => c.day) = ["Mon", "Sun"] ∧
    (rankedChains dayOrderEnv dayOrderInstructor 90).map (fun c => c.day) ≠ ["Sun", "Mon"] :=
  ⟨rfl, by decide, by decide, by decide, by decide⟩

/-! ## Invariants of the greedy loop -/

/-- Every placed assignment has its committed interval recorded in the
room, instructor and every enrolled student calendar of the state. -/
def placedFields (env : Env) (st : SchedState) (a : Assignment) : Prop :=
  ∀ d, a.day = some d →
    ∃ r s e, a.room_id = some r ∧ a.start = some s ∧ a.endT = some e ∧
      (s, e) ∈ st.roomBusy (r, d) ∧
      (s, e) ∈ st.instrBusy (a.instructor_id, d) ∧
      ∀ sid ∈ course_students env.enrollments a.course_id, (s, e) ∈ st.studentBusy (sid, d)

def Compat (env : Env) (st : SchedState) (l : List Assignment) : Prop :=
  ∀ a ∈ l, placedFields env st a

/-- Two assignments do not double-book: whenever both are placed on the
same day and share the room, the instructor, or an enrolled student,
their intervals do not overlap. -/
def NoClash (env : Env) (a b : Assignment) : Prop :=
  ∀ d sa ea sb eb, a.day = some d → b.day = some d →
    a.start = some sa → a.endT = some ea → b.start = some sb → b.endT = some eb →
    (a.room_id = b.room_id ∨ a.instructor_id = b.instructor_id ∨
      ∃ sid, sid ∈ course_students env.enrollments a.course_id ∧
        sid ∈ course_students env.enrollments b.course_id) →
    overlap sa ea sb eb = false

/-- Calendar growth: every membership of the first state also holds in
the second. -/
def stateLe (st st2 : SchedState) : Prop :=
  (∀ k v, v ∈ st.roomBusy k → v ∈ st2.roomBusy k) ∧
  (∀ k v, v ∈ st.instrBusy k → v ∈ st2.instrBusy k) ∧
  (∀ k v, v ∈ st.studentBusy k → v ∈ st2.studentBusy k)

theorem mem_pushAt (f : String × String → List (Nat × Nat)) (k k2 : String × String)
    (v w : Nat × Nat) (h : w ∈ f k2) : w ∈ pushAt f k v k2 := by
  unfold pushAt
  by_cases hk : k2 = k
  · rw [if_pos hk]
    exact List.mem_append_left _ h
  · rw [if_neg hk]
    exact h

theorem mem_pushAt_self (f : String × String → List (Nat × Nat)) (k : String × String)
    (v : Nat × Nat) : v ∈ pushAt f k v k := by
  unfold pushAt
  simp

theorem studentFold_mono (d : String) (v : Nat × Nat) :
    ∀ (studs : List String) (g : String × String → List (Nat × Nat))
      (k : String × String) (w : Nat × Nat), w ∈ g k →
      w ∈ (studs.foldl (fun g2 s2 => pushAt g2 (s2, d) v) g) k := by
  intro studs
  induction studs with
  | nil => intro g k w h; exact h
  | cons s2 ss ih =>
    intro g k w h
    rw [List.foldl_cons]
    exact ih _ k w (mem_pushAt g (s2, d) k v w h)

theorem mem_studentFold (d : String) (v : Nat × Nat) :
    ∀ (studs : List String) (g : String × String → List (Nat × Nat)) (sid : String),
      sid ∈ studs →
      v ∈ (studs.foldl (fun g2 s2 => pushAt g2 (s2, d) v) g) (sid, d) := by
  intro studs
  induction studs with
  | nil => intro g sid h; simp at h
  | cons s2 ss ih =>
    intro g sid h
    rw [List.foldl_cons]
    rcases List.mem_cons.mp h with rfl | h2
    · exact studentFold_mono d v ss _ (sid, d) v (mem_pushAt_self g (sid, d) v)
    · exact ih _ sid h2

theorem commit_mono (env : Env) (st : SchedState) (sess : Session) (ch : Chain)
    (room : Room) : stateLe st (commit env st sess ch room) := by
  refine ⟨?_, ?_, ?_⟩
  · intro k v h
    exact mem_pushAt _ _ k _ v h
  · intro k v h
    exact mem_pushAt _ _ k _ v h
  · intro k v h
    exact studentFold_mono ch.day (ch.start, ch.endT) _ _ k v h

theorem placedFields_mono (env : Env) (st st2 : SchedState) (a : Assignment)
    (hle : stateLe st st2) (h : placedFields env st a) : placedFields env st2 a := by
  intro d hd
  obtain ⟨r, s, e, h1, h2, h3, h4, h5, h6⟩ := h d hd
  exact ⟨r, s, e, h1, h2, h3, hle.1 _ _ h4, hle.2.1 _ _ h5,
    fun sid hsid => hle.2.2 _ _ (h6 sid hsid)⟩

theorem roomPasses_spec (env : Env) (st : SchedState) (sess : Session) (req : List String)
    (ch : Chain) (room : Room) (h : roomPasses env st sess req ch room = true) :
    free_in (st.roomBusy (room.room_id, ch.day)) ch.start ch.endT = true ∧
    free_in (st.instrBusy (sess.instructor_id, ch.day)) ch.start ch.endT = true ∧
    ∀ sid ∈ course_students env.enrollments sess.course_id,
      free_in (st.studentBusy (sid, ch.day)) ch.start ch.endT = true := by
  unfold roomPasses at h
  simp only [Bool.and_eq_true, List.all_eq_true] at h
  exact ⟨h.1.1.2, h.1.2, h.2⟩

theorem findPlacement_spec (env : Env) (st : SchedState) (sess : Session)
    (req : List String) (chains : List Chain) (ch : Chain) (room : Room)
    (h : findPlacement env st sess req chains = some (ch, room)) :
    ch ∈ chains ∧ room ∈ env.rooms ∧ roomPasses env st sess req ch room = true := by
  unfold findPlacement at h
  obtain ⟨l1, c2, l2, hsplit, hc2, -⟩ := List.findSome?_eq_some_iff.mp h
  have hc2mem : c2 ∈ chains := by
    rw [hsplit]
    exact List.mem_append_right _ (List.mem_cons_self _ _)
  by_cases hav : instructor_available env sess.instructor_id c2.day c2.start c2.endT
  · rw [if_pos hav] at hc2
    cases hf : env.rooms.find? (fun room2 => roomPasses env st sess req c2 room2) with
    | none => rw [hf] at hc2; simp at hc2
    | some room2 =>
      rw [hf] at hc2
      have hpair : (c2, room2) = (ch, room) := by injection hc2
      rw [Prod.mk.injEq] at hpair
      obtain ⟨rfl, rfl⟩ := hpair
      exact ⟨hc2mem, List.mem_of_find?_eq_some hf, List.find?_some hf⟩
  · rw [if_neg hav] at hc2
    simp at hc2

/-- Case analysis of one loop iteration that returned normally: either
nothing passed and the state is unchanged with the unplaced row
emitted, or some ranked chain and room passed every check and the
interval was committed. -/
theorem step_cases (env : Env) (st : SchedState) (sess : Session) (st2 : SchedState)
    (a : Assignment) (h : step env st sess = .ok (st2, a)) :
    (st2 = st ∧ a = mkUnplaced sess) ∨
    ∃ c irow ch room,
      env.courses.find? (fun x => x.course_id == sess.course_id) = some c ∧
      (timeslotsOf env).isEmpty = false ∧
      env.instructors.find? (fun x => x.instructor_id == sess.instructor_id) = some irow ∧
      findPlacement env st sess c.equipment_required
        (rankedChains env irow sess.duration_min) = some (ch, room) ∧
      st2 = commit env st sess ch room ∧ a = mkPlaced sess ch room := by
  unfold step at h
  split at h
  · exact absurd h (by simp)
  · rename_i c hc
    split at h
    · exact absurd h (by simp)
    · rename_i hts
      split at h
      · exact absurd h (by simp)
      · rename_i irow hi
        split at h
        · rename_i ch room hp
          simp only [Except.ok.injEq, Prod.mk.injEq] at h
          exact Or.inr ⟨c, irow, ch, room, hc, by simpa using hts, hi, hp,
            h.1.symm, h.2.symm⟩
        · rename_i hp
          simp only [Except.ok.injEq, Prod.mk.injEq] at h
          exact Or.inl ⟨h.1.symm, h.2.symm⟩

theorem stateLe_refl (st : SchedState) : stateLe st st :=
  ⟨fun _ _ h => h, fun _ _ h => h, fun _ _ h => h⟩

/-- One normal iteration preserves the calendar bookkeeping and clashes
with no previously emitted assignment. -/
theorem step_preserves (env : Env) (st : SchedState) (sess : Session) (st2 : SchedState)
    (a : Assignment) (l : List Assignment)
    (hC : Compat env st l) (h : step env st sess = .ok (st2, a)) :
    Compat env st2 (l ++ [a]) ∧ (∀ b ∈ l, NoClash env b a) ∧ stateLe st st2 := by
  rcases step_cases env st sess st2 a h with ⟨rfl, rfl⟩ |
    ⟨c, irow, ch, room, hc, hts, hi, hp, rfl, rfl⟩
  · refine ⟨?_, ?_, stateLe_refl _⟩
    · intro b hb
      rcases List.mem_append.mp hb with hbl | hba
      · exact hC b hbl
      · have hba2 : b = mkUnplaced sess := by simpa using hba
        subst hba2
        intro d hd
        simp [mkUnplaced] at hd
    · intro b _ d sa ea sb eb _ had
      simp [mkUnplaced] at had
  · obtain ⟨hchmem, hroommem, hpass⟩ :=
      findPlacement_spec env st sess c.equipment_required _ ch room hp
    obtain ⟨hfr, hfi, hfs⟩ := roomPasses_spec env st sess c.equipment_required ch room hpass
    have hmono := commit_mono env st sess ch room
    refine ⟨?_, ?_, hmono⟩
    · intro b hb
      rcases List.mem_append.mp hb with hbl | hba
      · exact placedFields_mono env st _ b hmono (hC b hbl)
      · have hba2 : b = mkPlaced sess ch room := by simpa using hba
        subst hba2
        intro d hd
        have hd2 : ch.day = d := by simpa [mkPlaced] using hd
        subst hd2
        refine ⟨room.room_id, ch.start, ch.endT, rfl, rfl, rfl, ?_, ?_, ?_⟩
        · exact mem_pushAt_self st.roomBusy (room.room_id, ch.day) (ch.start, ch.endT)
        · exact mem_pushAt_self st.instrBusy (sess.instructor_id, ch.day)
            (ch.start, ch.endT)
        · intro sid hsid
          exact mem_studentFold ch.day (ch.start, ch.endT) _ st.studentBusy sid hsid
    · intro b hbl d sa ea sb eb hbd had hbs hbe has hae hshare
      have hd2 : ch.day = d := by simpa [mkPlaced] using had
      subst hd2
      have hsb : ch.start = sb := by simpa [mkPlaced] using has
      subst hsb
      have heb : ch.endT = eb := by simpa [mkPlaced] using hae
      subst heb
      obtain ⟨rb, s2, e2, hbr, hbs2, hbe2, hmemR, hmemI, hmemS⟩ := hC b hbl ch.day hbd
      have hsa : s2 = sa := by
        rw [hbs] at hbs2
        exact (Option.some_inj.mp hbs2).symm
      have hea : e2 = ea := by
        rw [hbe] at hbe2
        exact (Option.some_inj.mp hbe2).symm
      subst hsa
      subst hea
      rw [overlap_swap]
      rcases hshare with hroom | hinstr | ⟨sid, hsid1, hsid2⟩
      · have hrb : rb = room.room_id := by
          have : b.room_id = some room.room_id := by
            rw [hroom]
            rfl
          rw [hbr] at this
          exact Option.some_inj.mp this
        subst hrb
        exact (free_in_spec _ _ _).mp hfr (s2, e2) hmemR
      · have hbi : b.instructor_id = sess.instructor_id := by
          rw [hinstr]
          rfl
        rw [hbi] at hmemI
        exact (free_in_spec _ _ _).mp hfi (s2, e2) hmemI
      · have hsid2b : sid ∈ course_students env.enrollments sess.course_id := by
          have : (mkPlaced sess ch room).course_id = sess.course_id := rfl
          rw [this] at hsid2
          exact hsid2
        exact (free_in_spec _ _ _).mp (hfs sid hsid2b) (s2, e2) (hmemS sid hsid1)

/-- Folding the loop over a session list extends the bookkeeping and
keeps the emitted assignments pairwise clash free. -/
theorem processSessions_invariant (env : Env) :
    ∀ (sl : List Session) (st : SchedState) (l : List Assignment),
      Compat env st l → l.Pairwise (NoClash env) →
      ∀ as2 st2, processSessions env sl st = .ok (as2, st2) →
        Compat env st2 (l ++ as2) ∧ (l ++ as2).Pairwise (NoClash env) := by
  intro sl
  induction sl with
  | nil =>
    intro st l hC hP as2 st2 h
    rw [processSessions] at h
    simp only [Except.ok.injEq, Prod.mk.injEq] at h
    obtain ⟨h1, h2⟩ := h
    subst h1
    subst h2
    simpa using ⟨hC, hP⟩
  | cons sess rest ih =>
    intro st l hC hP as2 st2 h
    rw [processSessions] at h
    cases hs : step env st sess with
    | error m => rw [hs] at h; exact absurd h (by simp)
    | ok pr =>
      obtain ⟨st1, a⟩ := pr
      rw [hs] at h
      dsimp only [] at h
      cases hr : processSessions env rest st1 with
      | error m => rw [hr] at h; exact absurd h (by simp)
      | ok pr2 =>
        obtain ⟨as3, st3⟩ := pr2
        rw [hr] at h
        simp only [Except.ok.injEq, Prod.mk.injEq] at h
        obtain ⟨h1, h2⟩ := h
        subst h1
        subst h2
        obtain ⟨hC2, hcross, -⟩ := step_preserves env st sess st1 a l hC hs
        have hP2 : (l ++ [a]).Pairwise (NoClash env) := by
          rw [List.pairwise_append]
          exact ⟨hP, List.pairwise_singleton _ _, fun x hx b hb => by
            rw [List.mem_singleton.mp hb]
            exact hcross x hx⟩
        have := ih st1 (l ++ [a]) hC2 hP2 as3 st3 hr
        rw [List.append_assoc, List.singleton_append] at this
        exact this

/-- Membership is preserved by the descending sort. -/
theorem mem_insertDesc {α : Type} (key : α → Int) (c x : α) (l : List α) :
    x ∈ insertDesc key c l ↔ x = c ∨ x ∈ l := by
  induction l with
  | nil => simp [insertDesc]
  | cons y ys ih =>
    by_cases h : key y ≤ key c
    · simp [insertDesc, h]
    · simp only [insertDesc, if_neg h, List.mem_cons, ih]
      tauto

theorem mem_sortDesc {α : Type} (key : α → Int) (x : α) (l : List α) :
    x ∈ sortDesc key l ↔ x ∈ l := by
  induction l with
  | nil => simp [sortDesc]
  | cons y ys ih => simp [sortDesc, mem_insertDesc, ih]

/-- What one output row says about its session: the identifying fields
match, and the row is either the unplaced record or a placement built
from a chain of the duration catalog and a room of the table. -/
def corresponds (env : Env) (sess : Session) (a : Assignment) : Prop :=
  a.course_id = sess.course_id ∧ a.session_index = sess.session_index ∧
  a.instructor_id = sess.instructor_id ∧
  (a = mkUnplaced sess ∨
    ∃ ch room, (timeslotsOf env).isEmpty = false ∧
      ch ∈ slots_matching_duration (timeslotsOf env) sess.duration_min ∧
      room ∈ env.rooms ∧ a = mkPlaced sess ch room)

theorem step_corresponds (env : Env) (st : SchedState) (sess : Session)
    (st2 : SchedState) (a : Assignment) (h : step env st sess = .ok (st2, a)) :
    corresponds env sess a := by
  rcases step_cases env st sess st2 a h with ⟨-, rfl⟩ |
    ⟨c, irow, ch, room, -, hts, -, hp, -, rfl⟩
  · exact ⟨rfl, rfl, rfl, Or.inl rfl⟩
  · obtain ⟨hchmem, hroommem, -⟩ :=
      findPlacement_spec env st sess c.equipment_required _ ch room hp
    rw [rankedChains, mem_sortDesc] at hchmem
    exact ⟨rfl, rfl, rfl, Or.inr ⟨ch, room, hts, hchmem, hroommem, rfl⟩⟩

/-- A normally completed loop emits exactly one row per session, in
order. -/
theorem processSessions_shape (env : Env) :
    ∀ (sl : List Session) (st : SchedState) (as2 : List Assignment) (st2 : SchedState),
      processSessions env sl st = .ok (as2, st2) →
      as2.length = sl.length ∧
      ∀ i, i < sl.length →
        corresponds env (sl.getD i dfltSession) (as2.getD i dfltAssignment) := by
  intro sl
  induction sl with
  | nil =>
    intro st as2 st2 h
    rw [processSessions] at h
    simp only [Except.ok.injEq, Prod.mk.injEq] at h
    obtain ⟨h1, -⟩ := h
    subst h1
    exact ⟨rfl, fun i hi => by simp at hi⟩
  | cons sess rest ih =>
    intro st as2 st2 h
    rw [processSessions] at h
    cases hs : step env st sess with
    | error m => rw [hs] at h; exact absurd h (by simp)
    | ok pr =>
      obtain ⟨st1, a⟩ := pr
      rw [hs] at h
      dsimp only [] at h
      cases hr : processSessions env rest st1 with
      | error m => rw [hr] at h; exact absurd h (by simp)
      | ok pr2 =>
        obtain ⟨as3, st3⟩ := pr2
        rw [hr] at h
        simp only [Except.ok.injEq, Prod.mk.injEq] at h
        obtain ⟨h1, -⟩ := h
        subst h1
        obtain ⟨hlen, hcor⟩ := ih st1 as3 st3 hr
        refine ⟨by simp [hlen], ?_⟩
        intro i hi
        match i with
        | 0 => simpa using step_corresponds env st sess st1 a hs
        | i + 1 =>
          simp only [List.getD_cons_succ]
          exact hcor i (by simpa using hi)

/-- Every expanded session carries the fields of some course row. -/
theorem expansion_member (courses : List Course) (sess : Session)
    (h : sess ∈ expand_course_sessions courses) :
    ∃ c ∈ courses, sess.course_id = c.course_id ∧
      sess.duration_min = c.session_duration_min ∧
      sess.instructor_id = c.instructor_id := by
  rw [expand_course_sessions, List.mem_flatMap] at h
  obtain ⟨c, hc, hmem⟩ := h
  rw [List.mem_map] at hmem
  obtain ⟨k, -, hk⟩ := hmem
  subst hk
  exact ⟨c, hc, rfl, rfl, rfl⟩

/-- The course lookup of the loop cannot fail for expanded sessions. -/
theorem expansion_course_found (courses : List Course) (sess : Session)
    (h : sess ∈ expand_course_sessions courses) :
    (courses.find? (fun c => c.course_id == sess.course_id)).isSome = true := by
  obtain ⟨c, hc, hid, -, -⟩ := expansion_member courses sess h
  rw [List.find?_isSome]
  exact ⟨c, hc, by simp [hid]⟩

/-- Under a nonempty timeslot catalog and resolvable instructor ids, one
iteration always returns normally. -/
theorem step_total (env : Env) (st : SchedState) (sess : Session)
    (hcs : (env.courses.find? (fun c => c.course_id == sess.course_id)).isSome = true)
    (hts : (timeslotsOf env).isEmpty = false)
    (hins : (env.instructors.find?
      (fun x => x.instructor_id == sess.instructor_id)).isSome = true) :
    ∃ st2 a, step env st sess = .ok (st2, a) := by
  obtain ⟨c, hc⟩ := Option.isSome_iff_exists.mp hcs
  obtain ⟨irow, hi⟩ := Option.isSome_iff_exists.mp hins
  cases hp : findPlacement env st sess c.equipment_required
      (rankedChains env irow sess.duration_min) with
  | none =>
    refine ⟨st, mkUnplaced sess, ?_⟩
    unfold step
    rw [hc]
    dsimp only []
    rw [if_neg (by simp [hts]), hi]
    dsimp only []
    rw [hp]
  | some pr =>
    obtain ⟨ch, room⟩ := pr
    refine ⟨commit env st sess ch room, mkPlaced sess ch room, ?_⟩
    unfold step
    rw [hc]
    dsimp only []
    rw [if_neg (by simp [hts]), hi]
    dsimp only []
    rw [hp]

theorem processSessions_total (env : Env) (hts : (timeslotsOf env).isEmpty = false) :
    ∀ (sl : List Session) (st : SchedState),
      (∀ sess ∈ sl, (env.courses.find? (fun c => c.course_id == sess.course_id)).isSome = true) →
      (∀ sess ∈ sl, (env.instructors.find?
        (fun x => x.instructor_id == sess.instructor_id)).isSome = true) →
      ∃ as2 st2, processSessions env sl st = .ok (as2, st2) := by
  intro sl
  induction sl with
  | nil => intro st _ _; exact ⟨[], st, rfl⟩
  | cons sess rest ih =>
    intro st hcs hins
    obtain ⟨st1, a, hs⟩ := step_total env st sess (hcs sess (by simp))
      hts (hins sess (by simp))
    obtain ⟨as3, st3, hr⟩ := ih st1 (fun x hx => hcs x (by simp [hx]))
      (fun x hx => hins x (by simp [hx]))
    refine ⟨a :: as3, st3, ?_⟩
    rw [processSessions, hs]
    dsimp only []
    rw [hr]

/-- Every abnormal exit of one iteration carries the generic pandas
message. -/
theorem step_error_msg (env : Env) (st : SchedState) (sess : Session) (m : String)
    (h : step env st sess = .error m) : m = pandasIndexMsg := by
  unfold step at h
  split at h
  · exact (Except.error.injEq .. ▸ h).symm
  · split at h
    · exact (Except.error.injEq .. ▸ h).symm
    · split at h
      · exact (Except.error.injEq .. ▸ h).symm
      · split at h
        · exact absurd h (by simp)
        · exact absurd h (by simp)

/-- A session whose instructor id resolves to no row makes the
iteration raise the generic pandas IndexError. -/
theorem step_instr_missing (env : Env) (st : SchedState) (sess : Session)
    (hcs : (env.courses.find? (fun c => c.course_id == sess.course_id)).isSome = true)
    (hins : env.instructors.find? (fun x => x.instructor_id == sess.instructor_id) = none) :
    step env st sess = .error pandasIndexMsg := by
  obtain ⟨c, hc⟩ := Option.isSome_iff_exists.mp hcs
  unfold step
  rw [hc]
  dsimp only []
  by_cases hts : (timeslotsOf env).isEmpty
  · rw [if_pos hts]
  · rw [if_neg hts, hins]

/-- If any session of the list has an unresolvable instructor id, the
whole loop raises the generic pandas IndexError. -/
theorem processSessions_error (env : Env) :
    ∀ (sl : List Session) (st : SchedState),
      (∀ sess ∈ sl, (env.courses.find? (fun c => c.course_id == sess.course_id)).isSome = true) →
      (∃ sess ∈ sl, env.instructors.find?
        (fun x => x.instructor_id == sess.instructor_id) = none) →
      processSessions env sl st = .error pandasIndexMsg := by
  intro sl
  induction sl with
  | nil =>
    intro st _ hbad
    obtain ⟨sess, hmem, -⟩ := hbad
    exact absurd hmem (by simp)
  | cons sess rest ih =>
    intro st hcs hbad
    by_cases hhead : env.instructors.find?
        (fun x => x.instructor_id == sess.instructor_id) = none
    · rw [processSessions, step_instr_missing env st sess (hcs sess (by simp)) hhead]
    · cases hs : step env st sess with
      | error m =>
        rw [processSessions, hs]
        dsimp only []
        rw [step_error_msg env st sess m hs]
      | ok pr =>
        obtain ⟨st1, a⟩ := pr
        obtain ⟨bad, hbadmem, hbadnone⟩ := hbad
        have hbadrest : bad ∈ rest := by
          rcases List.mem_cons.mp hbadmem with rfl | hr2
          · exact absurd hbadnone hhead
          · exact hr2
        rw [processSessions, hs]
        dsimp only []
        rw [ih st1 (fun x hx => hcs x (by simp [hx])) ⟨bad, hbadrest, hbadnone⟩]

/-! ## Structure of committed intervals -/

theorem headD_mem (l : List TimeSlot) (h : l ≠ []) : l.headD dfltSlot ∈ l := by
  cases l with
  | nil => contradiction
  | cons a l2 => simp

theorem getLastD_irrel (l : List TimeSlot) (h : l ≠ []) (d1 d2 : TimeSlot) :
    l.getLastD d1 = l.getLastD d2 := by
  cases l with
  | nil => contradiction
  | cons a l2 => rw [List.getLastD_cons, List.getLastD_cons]

/-- Every slot of the generated catalog has span one block, start on a
block boundary and the configured duration cell. -/
theorem catalog_slot_shape (days : List String) (s e b : Nat) (hb : 0 < b) (hse : s < e)
    (he : e < 1440) : ∀ x ∈ build_timeslots days s e b,
      x.duration_min = b ∧ x.endT = x.start + b ∧ ∃ j, x.start = s + j * b := by
  intro x hx
  obtain ⟨i, hi, hxi⟩ := List.mem_iff_getElem.mp hx
  obtain ⟨-, hlen, hchar⟩ := build_timeslots_char days s e b hb hse he
  have hilen : i < days.length * ((e - s) / b) := by rw [← hlen]; exact hi
  have hsome := hchar i hilen
  have h3 : (build_timeslots days s e b)[i]? = some x := by
    rw [List.getElem?_eq_getElem hi, hxi]
  rw [h3] at hsome
  have hx2 : x = mkSlot (1 + i) (days.getD (i / ((e - s) / b)) "")
      (s + (i % ((e - s) / b)) * b, s + (i % ((e - s) / b) + 1) * b) b :=
    Option.some_inj.mp hsome
  subst hx2
  refine ⟨rfl, ?_, ⟨i % ((e - s) / b), rfl⟩⟩
  simp only [mkSlot]
  ring

/-- A nonempty contiguous window of one-block slots spans length times
the block. -/
theorem chainOk_span (B : Nat) :
    ∀ w : List TimeSlot, w ≠ [] → chainOk w = true →
      (∀ x ∈ w, x.endT = x.start + B) →
      (w.getLastD dfltSlot).endT = (w.headD dfltSlot).start + w.length * B := by
  intro w
  induction w with
  | nil => intro h; contradiction
  | cons a rest ih =>
    intro _ hok hall
    cases rest with
    | nil =>
      have := hall a (by simp)
      simp [List.getLastD, this]
    | cons bslot rest2 =>
      simp only [chainOk, Bool.and_eq_true, beq_iff_eq] at hok
      have hrec := ih (by simp) hok.2
        (fun x hx => hall x (List.mem_cons_of_mem a hx))
      rw [List.getLastD_cons, getLastD_irrel (bslot :: rest2) (by simp) a dfltSlot, hrec]
      have haB : a.endT = a.start + B := hall a (by simp)
      simp only [List.headD, List.length_cons]
      have hba : bslot.start = a.start + B := by rw [← hok.1, haB]
      rw [hba]
      ring

/-- Every chain of the builder over a one-block-slot catalog spans
exactly ceil(duration / block) blocks and starts on a block boundary. -/
theorem chain_shape (ts : List TimeSlot) (dur B S : Nat) (hB : 0 < B) (hd : 1 ≤ dur)
    (hslots : ∀ x ∈ ts, x.duration_min = B ∧ x.endT = x.start + B ∧ ∃ j, x.start = S + j * B)
    (hne : ts ≠ []) :
    ∀ c ∈ slots_matching_duration ts dur,
      c.endT = c.start + blocksNeeded dur B * B ∧ ∃ j, c.start = S + j * B := by
  have htb : tableBlock ts = B := (hslots _ (headD_mem ts hne)).1
  intro c hc
  obtain ⟨d, i, hle, hok, hcw⟩ := mem_slots_matching ts dur c hc
  rw [htb] at hle hok hcw
  have hk1 : 1 ≤ blocksNeeded dur B := by
    rw [blocksNeeded, Nat.one_le_div_iff hB]
    omega
  have hwl : (((dayGroup ts d).drop i).take (blocksNeeded dur B)).length =
      blocksNeeded dur B := window_length _ i (blocksNeeded dur B) hle
  have hwne : ((dayGroup ts d).drop i).take (blocksNeeded dur B) ≠ [] := by
    intro h0
    rw [h0] at hwl
    simp at hwl
    omega
  have hwsub : ∀ x ∈ ((dayGroup ts d).drop i).take (blocksNeeded dur B), x ∈ ts :=
    fun x hx => mem_dayGroup ts d x (List.mem_of_mem_drop (List.mem_of_mem_take hx))
  have hspan := chainOk_span B _ hwne hok (fun x hx => (hslots x (hwsub x hx)).2.1)
  constructor
  · rw [hcw]
    simp only [mkChain]
    rw [hspan, hwl]
  · obtain ⟨j, hj⟩ := (hslots _ (hwsub _ (headD_mem _ hwne))).2.2
    refine ⟨j, ?_⟩
    rw [hcw]
    simp only [mkChain]
    exact hj

/-! ## The claims about full runs -/

instance : DecidableEq (Except String (List Assignment)) := fun a b =>
  match a, b with
  | .error x, .error y => if h : x = y then isTrue (by rw [h]) else isFalse (by simp [h])
  | .ok x, .ok y => if h : x = y then isTrue (by rw [h]) else isFalse (by simp [h])
  | .error _, .ok _ => isFalse (by simp)
  | .ok _, .error _ => isFalse (by simp)

/-- C1: after a complete run, the emitted assignment sequence is
pairwise clash free: any two placed rows that fall on the same day and
share the room id, the instructor id, or an enrolled student have
non-overlapping half-open intervals (the max of the starts is not
below the min of the ends, i.e. the overlap predicate is false). -/
theorem C1_no_double_booking (env : Env) (asn : List Assignment)
    (hrun : runAssignments env = .ok asn) :
    asn.Pairwise (NoClash env) := by
  unfold runAssignments at hrun
  cases hc : runCore env with
  | error m => rw [hc] at hrun; exact absurd hrun (by simp)
  | ok pr =>
    obtain ⟨as2, st2⟩ := pr
    rw [hc] at hrun
    have has : as2 = asn := by simpa using hrun
    subst has
    have hrec : processSessions env (expand_course_sessions env.courses) initState =
        .ok (as2, st2) := hc
    have := processSessions_invariant env (expand_course_sessions env.courses) initState []
      (fun a ha => absurd ha (by simp)) List.Pairwise.nil as2 st2 hrec
    simpa using this.2

/-- A small complete run used by several witnesses: one course with two
90 minute weekly sessions, a single Monday of two blocks, one willing
instructor, one room, one enrolled student; both sessions are placed
on the same day in the same room. -/
def demoEnv : Env :=
  { DAYS := ["Mon"], START_DAY := 480, END_DAY := 660, BLOCK_MIN := 90,
    courses := [{ course_id := "C1", sessions_per_week := 2, session_duration_min := 90,
                  instructor_id := "T1", equipment_required := [] }],
    instructors := [{ instructor_id := "T1", preferred_days := [],
                      preferred_start := none, preferred_end := none }],
    availability := [{ instructor_id := "T1", day := "Mon",
                       available_start := 480, available_end := 660 }],
    rooms := [{ room_id := "R1", building := "B1", capacity := 10, equipment := [] }],
    enrollments := [{ course_id := "C1", student_id := "S1" }] }

/-- The first placed row of the demo run. -/
def demoA1 : Assignment :=
  { course_id := "C1", session_index := 1, instructor_id := "T1", room_id := some "R1",
    building := some "B1", day := some "Mon", start := some 480, endT := some 570,
    slot_ids := "TS001" }

/-- The second placed row of the demo run. -/
def demoA2 : Assignment :=
  { course_id := "C1", session_index := 2, instructor_id := "T1", room_id := some "R1",
    building := some "B1", day := some "Mon", start := some 570, endT := some 660,
    slot_ids := "TS002" }

/-- Witness for C1: the demo run places two sessions of one course in
the same room on the same day, and they are pairwise clash free. -/
theorem C1_no_double_booking_witness :
    runAssignments demoEnv = .ok [demoA1, demoA2] ∧
    List.Pairwise (NoClash demoEnv) [demoA1, demoA2] :=
  ⟨by decide, C1_no_double_booking demoEnv [demoA1, demoA2] (by decide)⟩

/-- C2 amended: provided the timeslot catalog is nonempty and every
expanded session references an instructor id present in the
instructors table, the run returns normally with exactly one
Assignment per CourseSession, in expansion order, each either the
fully populated placed record or the unplaced record with absent room,
building, day, start and end and empty slot ids; no session is
dropped.  (As stated the claim is false: with a session present and an
empty timeslot catalog, or an unresolvable instructor id, the code
raises instead of emitting an unplaced row - see the
counterexample.) -/
theorem C2_one_row_per_session (env : Env)
    (hts : (timeslotsOf env).isEmpty = false)
    (hins : ∀ sess ∈ expand_course_sessions env.courses,
      (env.instructors.find? (fun x => x.instructor_id == sess.instructor_id)).isSome
        = true) :
    ∃ asn, runAssignments env = .ok asn ∧
      asn.length = (expand_course_sessions env.courses).length ∧
      ∀ i, i < (expand_course_sessions env.courses).length →
        corresponds env ((expand_course_sessions env.courses).getD i dfltSession)
          (asn.getD i dfltAssignment) := by
  obtain ⟨as2, st2, h⟩ := processSessions_total env hts (expand_course_sessions env.courses)
    initState (fun sess hs => expansion_course_found env.courses sess hs) hins
  obtain ⟨hlen, hcor⟩ := processSessions_shape env _ initState as2 st2 h
  refine ⟨as2, ?_, hlen, hcor⟩
  unfold runAssignments runCore
  rw [h]

/-- An input whose day window is shorter than one block: the timeslot
catalog is empty, and the single session makes the scheduler read
iloc[0] of the empty table. -/
def emptyCatalogEnv : Env :=
  { DAYS := ["Mon"], START_DAY := 480, END_DAY := 500, BLOCK_MIN := 90,
    courses := [{ course_id := "C1", sessions_per_week := 1, session_duration_min := 90,
                  instructor_id := "T1", equipment_required := [] }],
    instructors := [{ instructor_id := "T1", preferred_days := [],
                      preferred_start := none, preferred_end := none }],
    availability := [], rooms := [], enrollments := [] }

/-- Counterexample to C2 as stated: a session with a present instructor
but an empty timeslot catalog (day window shorter than one block) has
no passing chain and room combination, yet the run raises the pandas
IndexError instead of emitting an unplaced Assignment, so the output
has no entry for the session. -/
theorem C2_one_row_per_session_counterexample :
    (expand_course_sessions emptyCatalogEnv.courses).length = 1 ∧
    runAssignments emptyCatalogEnv = .error pandasIndexMsg :=
  ⟨by decide, by decide⟩

/-- Witness for C2 on the demo run. -/
theorem C2_one_row_per_session_witness :
    ∃ asn, runAssignments demoEnv = .ok asn ∧
      asn.length = (expand_course_sessions demoEnv.courses).length ∧
      ∀ i, i < (expand_course_sessions demoEnv.courses).length →
        corresponds demoEnv ((expand_course_sessions demoEnv.courses).getD i dfltSession)
          (asn.getD i dfltAssignment) :=
  C2_one_row_per_session demoEnv (by decide) (by decide)

/-- C7: every normally completed run returns the soft score equal to
the number of placed rows (those with a day) times the constant 0.1,
the preview equal to the first 20 assignments in final order with
times rendered HH:MM and absent times rendered as empty strings, a
sessions count equal to the total session count, and hard-error and
soft-detail counts that are zero unconditionally. -/
theorem C7_result_summary (env : Env) (asn : List Assignment)
    (hrun : runAssignments env = .ok asn) (hne : asn ≠ []) :
    ∃ r, run_scheduler env = .ok r ∧
      r.soft_score = ((asn.filter (fun a => a.day.isSome)).length : ℚ) * (1 / 10) ∧
      r.preview = (asn.take 20).map stringifyAssignment ∧
      r.sessions = (expand_course_sessions env.courses).length ∧
      r.hard_errors = 0 ∧ r.soft_details = 0 := by
  unfold runAssignments at hrun
  cases hc : runCore env with
  | error m => rw [hc] at hrun; exact absurd hrun (by simp)
  | ok pr =>
    obtain ⟨as2, st2⟩ := pr
    rw [hc] at hrun
    have has : as2 = asn := by simpa using hrun
    subst has
    have hlen := (processSessions_shape env _ initState as2 st2 hc).1
    have hrs : run_scheduler env = .ok
        { soft_score := ((as2.filter (fun a => a.day.isSome)).length : ℚ) * (1 / 10),
          preview := (as2.map stringifyAssignment).take 20,
          sessions := as2.length, hard_errors := 0, soft_details := 0 } := by
      unfold run_scheduler
      rw [hc]
      dsimp only []
      rw [if_neg (by simp [List.isEmpty_iff, hne])]
    exact ⟨_, hrs, rfl, (List.map_take stringifyAssignment as2 20).symm, hlen, rfl, rfl⟩

/-- Witness for C7 on the demo run: both sessions placed, soft score
2 * 0.1, preview of both stringified rows, counts 2, 0, 0. -/
theorem C7_result_summary_witness :
    ∃ r, run_scheduler demoEnv = .ok r ∧
      r.soft_score = ((([demoA1, demoA2]).filter (fun a => a.day.isSome)).length : ℚ)
        * (1 / 10) ∧
      r.preview = (([demoA1, demoA2]).take 20).map stringifyAssignment ∧
      r.sessions = (expand_course_sessions demoEnv.courses).length ∧
      r.hard_errors = 0 ∧ r.soft_details = 0 :=
  C7_result_summary demoEnv [demoA1, demoA2] (by decide) (by decide)

/-- C8 amended: whenever some expanded session references an instructor
id absent from the instructors table, the run fails before producing
any schedule - but with the generic pandas positional-indexer
IndexError, whose fixed message does not identify the missing
reference (see the counterexample); the session is not silently
skipped.  (As stated the claim is false: the message is neither
descriptive nor localized and names no missing id.) -/
theorem C8_missing_instructor_fails (env : Env)
    (hmiss : ∃ sess ∈ expand_course_sessions env.courses,
      env.instructors.find? (fun x => x.instructor_id == sess.instructor_id) = none) :
    runAssignments env = .error pandasIndexMsg ∧
    run_scheduler env = .error pandasIndexMsg := by
  have herr := processSessions_error env (expand_course_sessions env.courses) initState
    (fun sess hs => expansion_course_found env.courses sess hs) hmiss
  constructor
  · unfold runAssignments runCore
    rw [herr]
  · unfold run_scheduler runCore
    rw [herr]

/-- A run referencing the absent instructor id T9. -/
def missingInstrEnvA : Env :=
  { DAYS := ["Mon"], START_DAY := 480, END_DAY := 660, BLOCK_MIN := 90,
    courses := [{ course_id := "C1", sessions_per_week := 1, session_duration_min := 90,
                  instructor_id := "T9", equipment_required := [] }],
    instructors := [], availability := [], rooms := [], enrollments := [] }

/-- The same run but referencing the absent instructor id T8. -/
def missingInstrEnvB : Env :=
  { DAYS := ["Mon"], START_DAY := 480, END_DAY := 660, BLOCK_MIN := 90,
    courses := [{ course_id := "C1", sessions_per_week := 1, session_duration_min := 90,
                  instructor_id := "T8", equipment_required := [] }],
    instructors := [], availability := [], rooms := [], enrollments := [] }

/-- Counterexample to C8 as stated: two inputs with different missing
instructor ids fail with the same fixed error message, which contains
neither id, so the message does not identify the missing reference. -/
theorem C8_missing_instructor_fails_counterexample :
    runAssignments missingInstrEnvA = .error pandasIndexMsg ∧
    runAssignments missingInstrEnvB = .error pandasIndexMsg ∧
    ¬ (List.IsInfix "T9".data pandasIndexMsg.data) ∧
    ¬ (List.IsInfix "T8".data pandasIndexMsg.data) :=
  ⟨by decide, by decide, by decide, by decide⟩

/-- Witness for C8 at the T9 input. -/
theorem C8_missing_instructor_fails_witness :
    runAssignments missingInstrEnvA = .error pandasIndexMsg ∧
    run_scheduler missingInstrEnvA = .error pandasIndexMsg :=
  C8_missing_instructor_fails missingInstrEnvA (by decide)

/-- The expansion of a course table whose rows all have zero weekly
sessions is empty. -/
theorem expand_nil (courses : List Course)
    (h0 : ∀ c ∈ courses, c.sessions_per_week = 0) :
    expand_course_sessions courses = [] := by
  unfold expand_course_sessions
  induction courses with
  | nil => rfl
  | cons c cs ih =>
    rw [List.flatMap_cons, h0 c (List.mem_cons_self c cs)]
    simpa using ih (fun x hx => h0 x (List.mem_cons_of_mem c hx))

/-- C9: when the courses table expands to zero sessions (no courses, or
every course has zero sessions per week), run_scheduler raises - the
schedule DataFrame built from an empty record list has no day column
and the soft-score dropna fails with a KeyError - instead of returning
a result with a sessions count of 0. -/
theorem C9_empty_expansion_raises (env : Env)
    (h0 : ∀ c ∈ env.courses, c.sessions_per_week = 0) :
    run_scheduler env = .error keyErrorDayMsg := by
  have hexp := expand_nil env.courses h0
  unfold run_scheduler runCore
  rw [hexp]
  rfl

/-- An input with an empty courses table. -/
def noCoursesEnv : Env :=
  { DAYS := ["Mon"], START_DAY := 480, END_DAY := 660, BLOCK_MIN := 90,
    courses := [], instructors := [], availability := [], rooms := [], enrollments := [] }

/-- Witness for C9 at the empty courses table. -/
theorem C9_empty_expansion_raises_witness :
    run_scheduler noCoursesEnv = .error keyErrorDayMsg :=
  C9_empty_expansion_raises noCoursesEnv (by decide)

/-- C10: for a positive block length and a day window inside one day,
every placed assignment of a completed run commits the full span of
its chain: the interval starts on a block boundary (start of day plus
a whole number of blocks), lasts exactly ceil(session duration /
block) * block minutes - which can strictly exceed the requested
duration, as the witness with a 100 minute session in 90 minute blocks
shows - and this whole-block interval is the one recorded in the room,
instructor, and every enrolled student busy calendar. -/
theorem C10_full_block_commit (env : Env) (asn : List Assignment)
    (hb : 0 < env.BLOCK_MIN) (hse : env.START_DAY < env.END_DAY) (he : env.END_DAY < 1440)
    (hdur : ∀ c ∈ env.courses, 1 ≤ c.session_duration_min)
    (hrun : runAssignments env = .ok asn) :
    asn.length = (expand_course_sessions env.courses).length ∧
    ∀ i, i < asn.length → ∀ d, (asn.getD i dfltAssignment).day = some d →
      ∃ r s e, (asn.getD i dfltAssignment).room_id = some r ∧
        (asn.getD i dfltAssignment).start = some s ∧
        (asn.getD i dfltAssignment).endT = some e ∧
        e = s + blocksNeeded
          ((expand_course_sessions env.courses).getD i dfltSession).duration_min
          env.BLOCK_MIN * env.BLOCK_MIN ∧
        (∃ j, s = env.START_DAY + j * env.BLOCK_MIN) ∧
        (s, e) ∈ (finalState env).roomBusy (r, d) ∧
        (s, e) ∈ (finalState env).instrBusy ((asn.getD i dfltAssignment).instructor_id, d) ∧
        ∀ sid ∈ course_students env.enrollments (asn.getD i dfltAssignment).course_id,
          (s, e) ∈ (finalState env).studentBusy (sid, d) := by
  unfold runAssignments at hrun
  cases hc : runCore env with
  | error m => rw [hc] at hrun; exact absurd hrun (by simp)
  | ok pr =>
    obtain ⟨as2, st2⟩ := pr
    rw [hc] at hrun
    have has : as2 = asn := by simpa using hrun
    subst has
    have hrec : processSessions env (expand_course_sessions env.courses) initState =
        .ok (as2, st2) := hc
    obtain ⟨hlen, hcor⟩ := processSessions_shape env _ initState as2 st2 hrec
    have hcompat : Compat env st2 as2 := by
      have := processSessions_invariant env (expand_course_sessions env.courses) initState []
        (fun a ha => absurd ha (by simp)) List.Pairwise.nil as2 st2 hrec
      simpa using this.1
    have hfinal : finalState env = st2 := by
      unfold finalState
      rw [hc]
    refine ⟨hlen, ?_⟩
    intro i hi d hd
    have hil : i < (expand_course_sessions env.courses).length := by rw [← hlen]; exact hi
    have hamem : as2.getD i dfltAssignment ∈ as2 := by
      rw [List.getD_eq_getElem?_getD, List.getElem?_eq_getElem hi]
      exact List.getElem_mem hi
    obtain ⟨r, s, e, har, has2, hae, hmR, hmI, hmS⟩ := hcompat _ hamem d hd
    have hcori := hcor i hil
    obtain ⟨-, -, -, hshape⟩ := hcori
    rcases hshape with hunp | ⟨ch, room, hts, hchmem, -, hplaced⟩
    · rw [hunp] at hd
      simp [mkUnplaced] at hd
    · have hsess_mem : (expand_course_sessions env.courses).getD i dfltSession
          ∈ expand_course_sessions env.courses := by
        rw [List.getD_eq_getElem?_getD, List.getElem?_eq_getElem hil]
        exact List.getElem_mem hil
      obtain ⟨c, hcmem, -, hcdur, -⟩ :=
        expansion_member env.courses _ hsess_mem
      have hd1 : 1 ≤ ((expand_course_sessions env.courses).getD i dfltSession).duration_min := by
        rw [hcdur]
        exact hdur c hcmem
      have htne : timeslotsOf env ≠ [] := by
        intro h0
        rw [h0] at hts
        simp at hts
      have hchain := chain_shape (timeslotsOf env) _ env.BLOCK_MIN env.START_DAY hb hd1
        (catalog_slot_shape env.DAYS env.START_DAY env.END_DAY env.BLOCK_MIN hb hse he)
        htne ch hchmem
      have hs2 : s = ch.start := by
        have : (as2.getD i dfltAssignment).start = some ch.start := by rw [hplaced]; rfl
        rw [has2] at this
        exact Option.some_inj.mp this
      have he2 : e = ch.endT := by
        have : (as2.getD i dfltAssignment).endT = some ch.endT := by rw [hplaced]; rfl
        rw [hae] at this
        exact Option.some_inj.mp this
      refine ⟨r, s, e, har, has2, hae, ?_, ?_, ?_, ?_, ?_⟩
      · rw [hs2, he2, hchain.1]
      · obtain ⟨j, hj⟩ := hchain.2
        exact ⟨j, by rw [hs2, hj]⟩
      · rw [hfinal]
        exact hmR
      · rw [hfinal]
        exact hmI
      · intro sid hsid
        rw [hfinal]
        exact hmS sid hsid

/-- A run with a single 100 minute session in 90 minute blocks: the
committed interval spans two whole blocks, 180 minutes. -/
def longSessionEnv : Env :=
  { DAYS := ["Mon"], START_DAY := 480, END_DAY := 660, BLOCK_MIN := 90,
    courses := [{ course_id := "C1", sessions_per_week := 1, session_duration_min := 100,
                  instructor_id := "T1", equipment_required := [] }],
    instructors := [{ instructor_id := "T1", preferred_days := [],
                      preferred_start := none, preferred_end := none }],
    availability := [{ instructor_id := "T1", day := "Mon",
                       available_start := 480, available_end := 660 }],
    rooms := [{ room_id := "R1", building := "B1", capacity := 10, equipment := [] }],
    enrollments := [] }

/-- The single placed row of longSessionEnv: the whole 08:00 to 11:00
double block for a 100 minute session. -/
def longA1 : Assignment :=
  { course_id := "C1", session_index := 1, instructor_id := "T1", room_id := some "R1",
    building := some "B1", day := some "Mon", start := some 480, endT := some 660,
    slot_ids := "TS001,TS002" }

/-- Witness for C10: the 100 minute session is committed for the full
180 minute double block. -/
theorem C10_full_block_commit_witness :
    [longA1].length = (expand_course_sessions longSessionEnv.courses).length ∧
    ∀ i, i < ([longA1]).length → ∀ d, (([longA1]).getD i dfltAssignment).day = some d →
      ∃ r s e, (([longA1]).getD i dfltAssignment).room_id = some r ∧
        (([longA1]).getD i dfltAssignment).start = some s ∧
        (([longA1]).getD i dfltAssignment).endT = some e ∧
        e = s + blocksNeeded
          ((expand_course_sessions longSessionEnv.courses).getD i dfltSession).duration_min
          longSessionEnv.BLOCK_MIN * longSessionEnv.BLOCK_MIN ∧
        (∃ j, s = longSessionEnv.START_DAY + j * longSessionEnv.BLOCK_MIN) ∧
        (s, e) ∈ (finalState longSessionEnv).roomBusy (r, d) ∧
        (s, e) ∈ (finalState longSessionEnv).instrBusy
          ((([longA1]).getD i dfltAssignment).instructor_id, d) ∧
        ∀ sid ∈ course_students longSessionEnv.enrollments
          (([longA1]).getD i dfltAssignment).course_id,
          (s, e) ∈ (finalState longSessionEnv).studentBusy (sid, d) :=
  C10_full_block_commit longSessionEnv [longA1] (by decide) (by decide) (by decide)
    (by decide) (by decide)

end Timetabling
